import Mathlib

/-!
Verification of the kotts streaming playback timeline engine.

This file shallowly embeds the core components of the repository in Lean 4
and proves (or refutes) the behavioural claims made about them:

- the speech request pipeline with bounded retry
  (src/services/AudioService.ts, _createStreams);
- the intent-enforcing media controller (src/libs/MediaController.ts);
- the chunk buffer appender and its FIFO operation queue
  (MediaSourceAppender, unnamed part_006);
- the timeline compositor (src/libs/StreamingAudio.ts) and the
  chapter-producing reader (AudioReader, unnamed part_005);
- the time-to-text synchronizer (src/services/TTSService.ts).

Times and durations are modelled as rationals.  Event emissions are modelled
as explicit event lists on the state.  JavaScript event listeners fire
synchronously in the source (the EventEmitter calls listeners directly), so
listener effects are inlined at each emission site; async functions in the
source suspend only at await points whose continuations run before any other
state access relevant to the proved properties, so they are modelled as
sequential code.
-/

/-- PlaybackState enum from src/libs/MediaController.ts: a preference, not
the raw media element status. -/
inductive PlaybackState where
  | play
  | pause
  | ended
deriving DecidableEq, Repr

/-- BufferingState enum from src/libs/MediaController.ts. -/
inductive BufferingState where
  | buffering
  | ready
deriving DecidableEq, Repr

/-- IRange over rational times.  The source field named end is a Lean
keyword, so it is called stop here. -/
structure IRange where
  start : ℚ
  stop : ℚ
deriving DecidableEq, Repr

/-- Character-offset range (IRange over naturals) used for text ranges. -/
structure IRangeN where
  start : ℕ
  stop : ℕ
deriving DecidableEq, Repr

/-- StreamChapter from AudioReader (unnamed part_005) and AudioStream. -/
structure StreamChapter where
  timeRange : IRange
deriving DecidableEq, Repr

/-!
Speech request pipeline: AudioService._createStreams
(src/services/AudioService.ts, the variant with the RETRY constant).

Each text segment is modelled by its attempt function: attempt number to
result of createSpeech on that attempt.  Responses are abstracted to
naturals and errors to strings, which is all the control flow inspects.
-/

/-- RETRY constant from src/services/AudioService.ts. -/
def RETRY : ℕ := 3

/-- Outcome of processing one segment in _createStreams: the labelled block
tries createSpeech up to RETRY = 3 times; the first success is pushed and
yielded and breaks out of the block; if all three attempts fail the last
error is thrown. -/
def attemptSeg (att : ℕ → Except String ℕ) : Except String ℕ :=
  match att 0 with
  | .ok r => .ok r
  | .error _ =>
    match att 1 with
    | .ok r => .ok r
    | .error _ =>
      match att 2 with
      | .ok r => .ok r
      | .error e2 => .error e2

/-- Number of createSpeech calls _createStreams makes for one segment: it
stops right after the first success, and never exceeds RETRY. -/
def attemptsUsed (att : ℕ → Except String ℕ) : ℕ :=
  match att 0 with
  | .ok _ => 1
  | .error _ =>
    match att 1 with
    | .ok _ => 2
    | .error _ => 3

/-- The generator as a whole: processes segments in order; every successful
segment contributes exactly one emitted response (the push to _ttsResponses
and the yield); a segment whose three attempts all fail throws the last
error, which aborts the generator, so no later segment is processed.
Returns the emitted responses and the terminal error, if any. -/
def runPipeline : List (ℕ → Except String ℕ) → List ℕ × Option String
  | [] => ([], none)
  | s :: rest =>
    match attemptSeg s with
    | .ok r =>
      let p := runPipeline rest
      (r :: p.1, p.2)
    | .error e => ([], some e)

theorem attemptsUsed_le (att : ℕ → Except String ℕ) :
    attemptsUsed att ≤ RETRY := by
  unfold attemptsUsed RETRY
  cases att 0 <;> cases att 1 <;> simp

theorem attemptSeg_ok_of_first (att : ℕ → Except String ℕ) (i : ℕ) (r : ℕ)
    (hi : i < RETRY) (hok : att i = .ok r)
    (hbefore : ∀ j < i, ∃ e, att j = .error e) :
    attemptSeg att = .ok r ∧ attemptsUsed att = i + 1 := by
  unfold attemptSeg attemptsUsed
  have hi3 : i < 3 := hi
  clear hi
  interval_cases i
  · simp [hok]
  · obtain ⟨e0, h0⟩ := hbefore 0 (by omega)
    simp [h0, hok]
  · obtain ⟨e0, h0⟩ := hbefore 0 (by omega)
    obtain ⟨e1, h1⟩ := hbefore 1 (by omega)
    simp [h0, h1, hok]

theorem attemptSeg_error_of_all (att : ℕ → Except String ℕ)
    (e0 e1 e2 : String)
    (h0 : att 0 = .error e0) (h1 : att 1 = .error e1)
    (h2 : att 2 = .error e2) :
    attemptSeg att = .error e2 := by
  unfold attemptSeg
  simp [h0, h1, h2]

/-- Helper: a pipeline whose leading segments all succeed emits their
responses in order; a failing segment aborts with its last error and no
output from any later segment. -/
theorem runPipeline_prefix_fail (pre : List (ℕ → Except String ℕ))
    (s : ℕ → Except String ℕ) (rest : List (ℕ → Except String ℕ))
    (vals : List ℕ) (e : String)
    (hpre : pre.map attemptSeg = vals.map Except.ok)
    (hs : attemptSeg s = .error e) :
    runPipeline (pre ++ s :: rest) = (vals, some e) := by
  induction pre generalizing vals with
  | nil =>
    cases vals with
    | nil => simp [runPipeline, hs]
    | cons v vs => simp at hpre
  | cons p ps ih =>
    cases vals with
    | nil => simp at hpre
    | cons v vs =>
      simp only [List.map_cons, List.cons.injEq] at hpre
      simp [runPipeline, hpre.1, ih vs hpre.2]

/-- C4: for every text segment the speech request is attempted at most
RETRY = 3 times; a success on attempt i (all earlier attempts failing)
makes the labelled block emit exactly that one response after i + 1 calls;
if all three attempts fail the pipeline rethrows the error of the last
attempt and emits the responses of the earlier (successful) segments only,
processing no subsequent segment. -/
theorem speech_pipeline_retry_bound
    (att : ℕ → Except String ℕ) (i : ℕ) (r : ℕ)
    (pre : List (ℕ → Except String ℕ)) (s : ℕ → Except String ℕ)
    (rest : List (ℕ → Except String ℕ)) (vals : List ℕ)
    (e0 e1 e2 : String)
    (hi : i < RETRY) (hok : att i = .ok r)
    (hbefore : ∀ j < i, ∃ e, att j = .error e)
    (hpre : pre.map attemptSeg = vals.map Except.ok)
    (hall0 : s 0 = .error e0) (hall1 : s 1 = .error e1)
    (hall2 : s 2 = .error e2) :
    attemptsUsed att ≤ RETRY ∧
    (attemptSeg att = .ok r ∧ attemptsUsed att = i + 1) ∧
    runPipeline (pre ++ s :: rest) = (vals, some e2) := by
  refine ⟨attemptsUsed_le att, attemptSeg_ok_of_first att i r hi hok hbefore, ?_⟩
  exact runPipeline_prefix_fail pre s rest vals e2 hpre
    (attemptSeg_error_of_all s e0 e1 e2 hall0 hall1 hall2)

theorem speech_pipeline_retry_bound_witness :
    attemptsUsed (fun n => if n = 0 then .error "boom" else .ok 7) ≤ RETRY ∧
    (attemptSeg (fun n => if n = 0 then .error "boom" else .ok 7) = .ok 7 ∧
      attemptsUsed (fun n => if n = 0 then .error "boom" else .ok 7) = 2) ∧
    runPipeline
      ([fun _ => Except.ok 5] ++ (fun _ => Except.error "dead") :: [fun _ => Except.ok 9]) =
      ([5], some "dead") := by
  have h := speech_pipeline_retry_bound
    (fun n => if n = 0 then .error "boom" else .ok 7) 1 7
    [fun _ => Except.ok 5] (fun _ => Except.error "dead") [fun _ => Except.ok 9]
    [5] "dead" "dead" "dead"
    (by norm_num [RETRY]) (by simp)
    (by intro j hj; interval_cases j; exact ⟨"boom", rfl⟩)
    (by simp [attemptSeg]) rfl rfl rfl
  simpa using h

/-!
Intent-enforcing media controller: MediaController.play
(src/libs/MediaController.ts, lines 107-126).

The media element is reduced to the fields play() inspects; the result of
the awaited media.play() call is a parameter.  The try/catch in the source
handles every rejection, so the embedding is a total function: the Except
wrapper makes the absence of a throwing path a provable statement.
-/

/-- Readiness constant HTMLMediaElement.HAVE_CURRENT_DATA. -/
def HAVE_CURRENT_DATA : ℕ := 2

/-- Observable fields of the wrapped media element used by play(). -/
structure MediaElem where
  paused : Bool
  mediaEnded : Bool
  mediaCurrentTime : ℚ
  readyState : ℕ
deriving DecidableEq, Repr

/-- Result of the awaited media.play() promise. -/
inductive PlayAttempt where
  | resolves
  | notAllowed
  | failure (e : String)
deriving DecidableEq, Repr

/-- State and observable output of one MediaController.play call. -/
structure MCPlayResult where
  preferred : PlaybackState
  emitted : List PlaybackState
  logged : List String
deriving Repr

/-- MediaController.play: sets the preferred state to Play and emits it;
if the element is already playing usefully it returns early without calling
media.play(); otherwise the rejection of media.play() is caught: a
NotAllowedError reverts the preference to Pause and emits the change, any
other error is logged with the preference left as Play.  Nothing is
rethrown, hence the result is always Except.ok. -/
def mcPlay (m : MediaElem) (att : PlayAttempt) : Except String MCPlayResult :=
  let res : MCPlayResult := ⟨.play, [.play], []⟩
  if ¬m.paused ∧ ¬m.mediaEnded ∧ m.mediaCurrentTime > 0 ∧
      m.readyState > HAVE_CURRENT_DATA then
    .ok res
  else
    match att with
    | .resolves => .ok res
    | .notAllowed =>
      .ok { res with preferred := .pause, emitted := res.emitted ++ [.pause] }
    | .failure e =>
      .ok { res with logged := res.logged ++ [e] }

/-- C7: when the media play attempt actually happens (the early-return guard
is false) and rejects, a NotAllowedError reverts the preferred state to
Pause with a state-change emission and play() resolves; any other rejection
is logged, the preferred state remains Play, and play() still resolves.
Nothing ever throws out of play(). -/
theorem mc_play_soft_failure (m : MediaElem) (e : String)
    (hattempt : ¬(¬m.paused ∧ ¬m.mediaEnded ∧ m.mediaCurrentTime > 0 ∧
      m.readyState > HAVE_CURRENT_DATA)) :
    mcPlay m .notAllowed =
      .ok ⟨.pause, [.play, .pause], []⟩ ∧
    mcPlay m (.failure e) = .ok ⟨.play, [.play], [e]⟩ ∧
    ∀ att, ∃ r, mcPlay m att = .ok r := by
  refine ⟨?_, ?_, ?_⟩
  · unfold mcPlay
    rw [if_neg hattempt]
    rfl
  · unfold mcPlay
    rw [if_neg hattempt]
    rfl
  · intro att
    unfold mcPlay
    split
    · exact ⟨_, rfl⟩
    · cases att <;> exact ⟨_, rfl⟩

theorem mc_play_soft_failure_witness :
    mcPlay ⟨true, false, 0, 0⟩ .notAllowed =
      .ok ⟨.pause, [.play, .pause], []⟩ := by
  exact (mc_play_soft_failure ⟨true, false, 0, 0⟩ "err" (by simp)).1


/-!
Chunk buffer appender, operation queue: MediaSourceAppender._appendChunk and
_processNextOperation (unnamed part_006, lines 176-221).

The SourceBuffer is modelled by its updating flag.  appendBuffer starts an
asynchronous mutation (updating becomes true) and the primitive later fires
updateend (the browser clears updating before the listener runs).  The
machine consumes a list of external stimuli: submissions of chunks by
_appendChunk, and updateend signals.  The log records, in order, each
appendBuffer call (start of a mutation) and each completion signal.  The
synchronous-throw path of appendBuffer (QuotaExceededError) starts no
mutation; its handling inside next() is modelled in the section below.
-/

/-- Entry of the source-buffer activity log. -/
inductive QLogEntry where
  | start (c : ℕ)
  | done
deriving DecidableEq, Repr

/-- External stimulus: an _appendChunk submission or an updateend event. -/
inductive QEvent where
  | submit (c : ℕ)
  | updateEnd
deriving DecidableEq, Repr

/-- State of the appender queue: _pendingOperations, the updating flag of
the SourceBuffer, and the activity log. -/
structure QState where
  pending : List ℕ
  updating : Bool
  log : List QLogEntry
deriving DecidableEq, Repr

/-- MediaSourceAppender._processNextOperation: returns if the buffer is
updating or the queue is empty; otherwise shifts the first operation and
calls appendBuffer on it, which puts the buffer into the updating state. -/
def processNextOperation (st : QState) : QState :=
  if st.updating then st
  else
    match st.pending with
    | [] => st
    | c :: rest =>
      { pending := rest, updating := true, log := st.log ++ [.start c] }

/-- One stimulus step: _appendChunk pushes the operation and kicks the queue
when the buffer is idle; the updateend listener (the buffer has finished its
mutation, updating is clear again) records completion and kicks the queue. -/
def stepQ (st : QState) : QEvent → QState
  | .submit c =>
    if st.updating then { st with pending := st.pending ++ [c] }
    else processNextOperation { st with pending := st.pending ++ [c] }
  | .updateEnd =>
    if st.updating then
      processNextOperation { st with updating := false, log := st.log ++ [.done] }
    else st

/-- Initial appender state: empty queue, idle buffer, empty log. -/
def initQ : QState := ⟨[], false, []⟩

/-- Run of the appender over a stimulus list. -/
def runQ (evts : List QEvent) : QState := evts.foldl stepQ initQ

/-- Chunks submitted by a stimulus list, in submission order. -/
def submittedQ (evts : List QEvent) : List ℕ :=
  evts.filterMap fun e => match e with | .submit c => some c | .updateEnd => none

/-- Chunks handed to appendBuffer, in the order they were started. -/
def startedQ (l : List QLogEntry) : List ℕ :=
  l.filterMap fun e => match e with | .start c => some c | .done => none

/-- Number of mutations started but not yet completed in a log slice: how
many operations are in flight against the buffer at that point in time. -/
def inFlight (l : List QLogEntry) : ℤ :=
  (l.countP fun e => match e with | .start _ => true | .done => false : ℕ) -
    (l.countP fun e => match e with | .start _ => false | .done => true : ℕ)

theorem inFlight_concat_start (l : List QLogEntry) (c : ℕ) :
    inFlight (l ++ [.start c]) = inFlight l + 1 := by
  unfold inFlight
  rw [List.countP_append, List.countP_append]
  simp [List.countP_cons]
  ring

theorem inFlight_concat_done (l : List QLogEntry) :
    inFlight (l ++ [.done]) = inFlight l - 1 := by
  unfold inFlight
  rw [List.countP_append, List.countP_append]
  simp [List.countP_cons]
  omega

/-- Machine invariant tying the updating flag to the log: the flag is set
exactly when one mutation is in flight, every prefix of the log has at most
one mutation in flight and never a negative number, and a mutation only
starts on an idle buffer (zero in flight right before any start entry). -/
def QInv (st : QState) : Prop :=
  inFlight st.log = (if st.updating then 1 else 0) ∧
  (∀ p, p <+: st.log → 0 ≤ inFlight p ∧ inFlight p ≤ 1) ∧
  (∀ p c, p ++ [QLogEntry.start c] <+: st.log → inFlight p = 0)

theorem qinv_init : QInv initQ := by
  refine ⟨rfl, ?_, ?_⟩
  · intro p hp
    rw [List.prefix_nil.mp hp]
    exact ⟨le_refl 0, by norm_num [inFlight]⟩
  · intro p c hp
    have h := List.prefix_nil.mp hp
    simp at h

theorem qinv_processNext (st : QState) (h : QInv st) :
    QInv (processNextOperation st) := by
  obtain ⟨h1, h2, h3⟩ := h
  unfold processNextOperation
  by_cases hupd : st.updating = true
  · rw [if_pos hupd]
    exact ⟨h1, h2, h3⟩
  · rw [if_neg hupd]
    rw [Bool.not_eq_true] at hupd
    rw [hupd] at h1
    simp only [Bool.false_eq_true, if_false] at h1
    cases hpend : st.pending with
    | nil => exact ⟨by rw [hupd]; simpa using h1, h2, h3⟩
    | cons c rest =>
      refine ⟨?_, ?_, ?_⟩
      · simp only [if_true]
        rw [inFlight_concat_start, h1]
        norm_num
      · intro p hpre
        rcases List.prefix_concat_iff.mp hpre with heq | hpre2
        · subst heq
          rw [inFlight_concat_start, h1]
          norm_num
        · exact h2 p hpre2
      · intro p c2 hpre
        rcases List.prefix_concat_iff.mp hpre with heq | hpre2
        · have hlen : p.length = st.log.length := by
            have hl := congrArg List.length heq
            simp only [List.length_append, List.length_singleton] at hl
            omega
          obtain ⟨hpe, _⟩ := List.append_inj heq hlen
          rw [hpe]
          exact h1
        · exact h3 p c2 hpre2

theorem qinv_step (st : QState) (e : QEvent) (h : QInv st) :
    QInv (stepQ st e) := by
  cases e with
  | submit c =>
    have hmid : QInv { st with pending := st.pending ++ [c] } :=
      ⟨h.1, h.2.1, h.2.2⟩
    show QInv (if st.updating then { st with pending := st.pending ++ [c] }
      else processNextOperation { st with pending := st.pending ++ [c] })
    by_cases hupd : st.updating = true
    · rw [if_pos hupd]
      exact hmid
    · rw [if_neg hupd]
      exact qinv_processNext _ hmid
  | updateEnd =>
    show QInv (if st.updating then
      processNextOperation { st with updating := false, log := st.log ++ [.done] }
      else st)
    by_cases hupd : st.updating = true
    · rw [if_pos hupd]
      obtain ⟨h1, h2, h3⟩ := h
      rw [hupd] at h1
      simp only [if_true] at h1
      apply qinv_processNext
      refine ⟨?_, ?_, ?_⟩
      · simp only [Bool.false_eq_true, if_false]
        rw [inFlight_concat_done, h1]
        norm_num
      · intro p hpre
        rcases List.prefix_concat_iff.mp hpre with heq | hpre2
        · subst heq
          rw [inFlight_concat_done, h1]
          norm_num
        · exact h2 p hpre2
      · intro p c2 hpre
        rcases List.prefix_concat_iff.mp hpre with heq | hpre2
        · exfalso
          have hlen : p.length = st.log.length := by
            have hl := congrArg List.length heq
            simp only [List.length_append, List.length_singleton] at hl
            omega
          obtain ⟨_, htl⟩ := List.append_inj heq hlen
          simp at htl
        · exact h3 p c2 hpre2
    · rw [if_neg hupd]
      exact h

/-- FIFO tracking invariant: the chunks already handed to appendBuffer
followed by the chunks still queued are exactly the submitted chunks in
submission order. -/
theorem qtrack_processNext (st : QState) :
    startedQ (processNextOperation st).log ++ (processNextOperation st).pending =
      startedQ st.log ++ st.pending := by
  unfold processNextOperation
  by_cases hupd : st.updating = true
  · rw [if_pos hupd]
  · rw [if_neg hupd]
    cases hpend : st.pending with
    | nil => simp [hpend]
    | cons c rest => simp [startedQ, List.filterMap_append]

theorem qtrack_step (st : QState) (e : QEvent) :
    startedQ (stepQ st e).log ++ (stepQ st e).pending =
      (startedQ st.log ++ st.pending) ++
        (match e with | .submit c => [c] | .updateEnd => []) := by
  cases e with
  | submit c =>
    show startedQ (if st.updating then { st with pending := st.pending ++ [c] }
        else processNextOperation { st with pending := st.pending ++ [c] }).log ++
      (if st.updating then { st with pending := st.pending ++ [c] }
        else processNextOperation { st with pending := st.pending ++ [c] }).pending = _
    by_cases hupd : st.updating = true
    · rw [if_pos hupd]
      simp
    · rw [if_neg hupd]
      rw [qtrack_processNext]
      simp
  | updateEnd =>
    show startedQ (if st.updating then
        processNextOperation { st with updating := false, log := st.log ++ [.done] }
        else st).log ++
      (if st.updating then
        processNextOperation { st with updating := false, log := st.log ++ [.done] }
        else st).pending = _
    by_cases hupd : st.updating = true
    · rw [if_pos hupd]
      rw [qtrack_processNext]
      simp [startedQ, List.filterMap_append]
    · rw [if_neg hupd]
      simp

theorem runQ_fold_inv (evts : List QEvent) (st : QState) (h : QInv st) :
    QInv (evts.foldl stepQ st) ∧
      startedQ (evts.foldl stepQ st).log ++ (evts.foldl stepQ st).pending =
        (startedQ st.log ++ st.pending) ++ submittedQ evts := by
  induction evts generalizing st with
  | nil => simpa [submittedQ] using h
  | cons e es ih =>
    obtain ⟨hinv, htrack⟩ := ih (stepQ st e) (qinv_step st e h)
    simp only [List.foldl_cons]
    refine ⟨hinv, ?_⟩
    rw [htrack, qtrack_step]
    cases e <;> simp [submittedQ]

/-- C6: at most one mutating operation is in flight against the source
buffer at any time (every point of the activity log of any run has between
zero and one started-but-uncompleted mutations), each appendBuffer call is
made only when every earlier mutation has signalled completion, and the
submitted chunks are drained strictly in FIFO submission order (the chunks
started so far, in start order, followed by the still-pending queue, equal
the submitted chunks in submission order). -/
theorem appender_serializes_fifo (evts : List QEvent) :
    (∀ p, p <+: (runQ evts).log → 0 ≤ inFlight p ∧ inFlight p ≤ 1) ∧
    (∀ p c, p ++ [QLogEntry.start c] <+: (runQ evts).log → inFlight p = 0) ∧
    startedQ (runQ evts).log ++ (runQ evts).pending = submittedQ evts := by
  obtain ⟨⟨_, h2, h3⟩, htrack⟩ := runQ_fold_inv evts initQ qinv_init
  refine ⟨h2, h3, ?_⟩
  simpa [initQ, startedQ] using htrack

theorem appender_serializes_fifo_witness :
    startedQ (runQ [.submit 1, .submit 2, .updateEnd, .updateEnd]).log ++
        (runQ [.submit 1, .submit 2, .updateEnd, .updateEnd]).pending =
      submittedQ [.submit 1, .submit 2, .updateEnd, .updateEnd] ∧
    inFlight [QLogEntry.start 1, QLogEntry.done] = 0 := by
  refine ⟨(appender_serializes_fifo [.submit 1, .submit 2, .updateEnd, .updateEnd]).2.2, ?_⟩
  exact (appender_serializes_fifo [.submit 1, .submit 2, .updateEnd, .updateEnd]).2.1
    [QLogEntry.start 1, QLogEntry.done] 2 (by decide)

/-!
Chunk buffer appender, capacity exhaustion: MediaSourceAppender.next
(unnamed part_006, lines 54-129).

One call of next() is modelled as a sequential program (single-threaded;
the awaited remove and append operations settle before the next statement
runs).  The reads of media.currentTime and of buffered.start(0) at the two
points where the source performs them are inputs, as is the outcome of each
appendBuffer call made during this next() call.  The log records the
operations issued to the SourceBuffer in order.  _removeBufferRange only
emits remove failures on the onError channel and never rejects; removes are
modelled as succeeding, which is the path the claim is about.
-/

/-- Outcome of one appendBuffer call inside next(). -/
inductive AppendOutcome where
  | ok
  | quota
  | other (e : String)
deriving DecidableEq, Repr

/-- Inputs of one next() call: the cursor and buffered start as read at the
pre-append eviction check, the same two reads inside the quota handler, and
the outcome of the k-th appendBuffer call of this next() call. -/
structure NextInput where
  ct0 : ℚ
  buffered0 : Option ℚ
  ct1 : ℚ
  buffered1 : Option ℚ
  out : ℕ → AppendOutcome

/-- Operation issued to the SourceBuffer by next(): a remove of a time range
or the k-th append attempt of the chunk. -/
inductive BufOp where
  | remove (s e : ℚ)
  | appendAttempt (k : ℕ)
deriving DecidableEq, Repr

/-- Observable result of one next() call: operations issued in order, errors
emitted on the onError channel, console warnings, and the error the promise
rejects with, if any. -/
structure NextResult where
  log : List BufOp
  errorsEmitted : List String
  warnings : ℕ
  thrown : Option String
deriving DecidableEq, Repr

/-- Eviction issued before the append in next(): history older than 15s
behind the cursor is evicted once more than 30s of it has accumulated. -/
def msaPreLog (inp : NextInput) : List BufOp :=
  match inp.buffered0 with
  | none => []
  | some s0 =>
    if inp.ct0 - s0 > 30 then
      if max s0 (inp.ct0 - 15) > s0 then [.remove s0 (max s0 (inp.ct0 - 15))]
      else []
    else []

/-- Quota handler of next(): when buffered data exists, evict up to 5s
behind the cursor and, when that eviction is nonempty, retry the append
once; a failing retry is only console-warned.  When there is nothing to
evict the quota error is dropped without a retry. -/
def msaQuotaPath (inp : NextInput) (log0 : List BufOp) : NextResult :=
  match inp.buffered1 with
  | none => ⟨log0, [], 0, none⟩
  | some s1 =>
    if max s1 (inp.ct1 - 5) > s1 then
      match inp.out 1 with
      | .ok =>
        ⟨log0 ++ [.remove s1 (max s1 (inp.ct1 - 5)), .appendAttempt 1], [], 0, none⟩
      | _ =>
        ⟨log0 ++ [.remove s1 (max s1 (inp.ct1 - 5)), .appendAttempt 1], [], 1, none⟩
    else ⟨log0, [], 0, none⟩

/-- MediaSourceAppender.next: the pre-append eviction, then the append; a
QuotaExceededError routes into the quota handler, a non-quota error is
rethrown (the promise rejects), success resolves. -/
def msaNext (inp : NextInput) : NextResult :=
  match inp.out 0 with
  | .ok => ⟨msaPreLog inp ++ [.appendAttempt 0], [], 0, none⟩
  | .other e => ⟨msaPreLog inp ++ [.appendAttempt 0], [], 0, some e⟩
  | .quota => msaQuotaPath inp (msaPreLog inp ++ [.appendAttempt 0])

/-- Count of appendBuffer calls made by one next() call. -/
def msaAppendAttempts (r : NextResult) : ℕ :=
  (r.log.filter fun op => match op with
    | .appendAttempt _ => true
    | .remove _ _ => false).length

/-- C5 counterexample: with the cursor at 100, buffered history starting at
0 and every append rejected with QuotaExceededError, the retried append
fails, yet nothing reaches the error channel and next() resolves without
rejecting: the retry failure is only counted as a console warning.  This
contradicts the claim that the failure is surfaced to the error channel
when the retried append also fails. -/
theorem msa_quota_retry_not_surfaced :
    (msaNext ⟨100, some 0, 100, some 0, fun _ => .quota⟩).errorsEmitted = [] ∧
    (msaNext ⟨100, some 0, 100, some 0, fun _ => .quota⟩).thrown = none ∧
    (msaNext ⟨100, some 0, 100, some 0, fun _ => .quota⟩).warnings = 1 ∧
    (msaNext ⟨100, some 0, 100, some 0, fun _ => .quota⟩).log =
      [.remove 0 85, .appendAttempt 0, .remove 0 95, .appendAttempt 1] := by
  refine ⟨?_, ?_, ?_, ?_⟩ <;> norm_num [msaNext, msaPreLog, msaQuotaPath]

/-- Helper: the pre-append eviction issues no append attempts. -/
theorem msaPreLogNoAppend (inp : NextInput) :
    (msaPreLog inp).filter (fun op => match op with
      | BufOp.appendAttempt _ => true
      | BufOp.remove _ _ => false) = [] := by
  unfold msaPreLog
  cases inp.buffered0 with
  | none => rfl
  | some s0 =>
    by_cases h1 : inp.ct0 - s0 > 30 <;>
      by_cases h2 : max s0 (inp.ct0 - 15) > s0 <;>
      simp [h1, h2]

/-- C5 as amended: on a QuotaExceededError with evictable buffered history
(the aggressive cutoff lies beyond the buffered start), next() issues the
aggressive eviction, whose cutoff of 5s behind the cursor retains a
narrower margin than the regular 15s cutoff, followed immediately by
exactly one retry of the same append (the eviction precedes the retried
append in the operation order and exactly two append attempts are made);
a failure of the retried append is swallowed: it is counted only as a
console warning, nothing is emitted on the error channel, and next()
resolves without rejecting. -/
theorem msa_quota_aggressive_retry (inp : NextInput) (s1 : ℚ)
    (hq : inp.out 0 = .quota)
    (hb : inp.buffered1 = some s1)
    (hcut : max s1 (inp.ct1 - 5) > s1) :
    (∃ pre, (msaNext inp).log =
      pre ++ [.appendAttempt 0, .remove s1 (max s1 (inp.ct1 - 5)), .appendAttempt 1]) ∧
    msaAppendAttempts (msaNext inp) = 2 ∧
    max s1 (inp.ct1 - 15) ≤ max s1 (inp.ct1 - 5) ∧
    (msaNext inp).errorsEmitted = [] ∧
    (msaNext inp).thrown = none ∧
    (msaNext inp).warnings = (if inp.out 1 = .ok then 0 else 1) := by
  have hnext : msaNext inp = msaQuotaPath inp (msaPreLog inp ++ [.appendAttempt 0]) := by
    unfold msaNext
    rw [hq]
  have hmax : max s1 (inp.ct1 - 15) ≤ max s1 (inp.ct1 - 5) := by
    apply max_le_max (le_refl s1)
    linarith
  rw [hnext]
  unfold msaQuotaPath
  simp only [hb]
  rw [if_pos hcut]
  cases hout1 : inp.out 1 with
  | ok =>
    refine ⟨⟨msaPreLog inp, by simp⟩, ?_, hmax, rfl, rfl, by simp⟩
    simp [msaAppendAttempts, List.filter_append, msaPreLogNoAppend]
  | quota =>
    refine ⟨⟨msaPreLog inp, by simp⟩, ?_, hmax, rfl, rfl, by simp [hout1]⟩
    simp [msaAppendAttempts, List.filter_append, msaPreLogNoAppend]
  | other e =>
    refine ⟨⟨msaPreLog inp, by simp⟩, ?_, hmax, rfl, rfl, by simp [hout1]⟩
    simp [msaAppendAttempts, List.filter_append, msaPreLogNoAppend]

theorem msa_quota_aggressive_retry_witness :
    (∃ pre, (msaNext ⟨0, none, 20, some 1, fun _ => .quota⟩).log =
      pre ++ [.appendAttempt 0, .remove 1 (max 1 ((20 : ℚ) - 5)), .appendAttempt 1]) ∧
    msaAppendAttempts (msaNext ⟨0, none, 20, some 1, fun _ => .quota⟩) = 2 := by
  have h := msa_quota_aggressive_retry ⟨0, none, 20, some 1, fun _ => .quota⟩ 1
    rfl rfl (by norm_num)
  exact ⟨h.1, h.2.1⟩

/-!
Time-to-text synchronizer, active-word lookup: TTSService._getWordAtTime and
TTSService._getChapterIndexAtTime (src/services/TTSService.ts, lines
300-346).

Word timestamps keep their chunk-local time range and their character
range.  A TTSResponse is reduced to its wordTimestamps list, which is all
the lookup inspects.
-/

/-- Word timestamp entry of a TTSResponse: chunk-local time range and
character range into the request text. -/
structure WordTimestamp where
  timeRange : IRange
  textRange : IRangeN
deriving DecidableEq, Repr

/-- Record returned by _getWordAtTime. -/
structure WordHit where
  streamIndex : ℕ
  textRange : IRangeN
  startTime : ℚ
deriving DecidableEq, Repr

/-- TTSService._getChapterIndexAtTime: index of the first chapter whose
closed time range contains the time, or -1. -/
def getChapterIndexAtTime (chapters : List StreamChapter) (time : ℚ) : Int :=
  match chapters.findIdx? (fun c =>
      decide (c.timeRange.start ≤ time) && decide (time ≤ c.timeRange.stop)) with
  | some i => (i : Int)
  | none => -1


/-- Loop body of _getWordAtTime: the matched word-timestamp entry is the
first whose half-open chunk-local interval contains the relative time.
This returns the matched entry together with its chapter index; the source
returns a projection of it, defined below. -/
def getWordEntryAtTime (chapters : List StreamChapter)
    (responses : List (List WordTimestamp)) (time : ℚ) :
    Option (ℕ × WordTimestamp) :=
  if getChapterIndexAtTime chapters time = -1 then none
  else if (getChapterIndexAtTime chapters time).toNat ≥ chapters.length ∨
      (getChapterIndexAtTime chapters time).toNat ≥ responses.length then none
  else
    match chapters.get? (getChapterIndexAtTime chapters time).toNat,
        responses.get? (getChapterIndexAtTime chapters time).toNat with
    | some chapter, some wordTimestamps =>
      match wordTimestamps.find? (fun w =>
          decide (w.timeRange.start ≤ time - chapter.timeRange.start) &&
            decide (time - chapter.timeRange.start < w.timeRange.stop)) with
      | some w => some ((getChapterIndexAtTime chapters time).toNat, w)
      | none => none
    | _, _ => none

/-- TTSService._getWordAtTime: projects the matched entry onto the record
the source builds: stream index, text range, and the global start time of
the word (chapter start plus chunk-local word start). -/
def getWordAtTime (chapters : List StreamChapter)
    (responses : List (List WordTimestamp)) (time : ℚ) : Option WordHit :=
  match getWordEntryAtTime chapters responses time with
  | none => none
  | some (n, w) =>
    match chapters.get? n with
    | none => none
    | some chapter =>
      some ⟨n, w.textRange, chapter.timeRange.start + w.timeRange.start⟩

/-- Helper: find? returns the element at index j when it satisfies the
predicate and no earlier element does. -/
theorem find_first_at (l : List WordTimestamp) (p : WordTimestamp → Bool)
    (j : ℕ) (w : WordTimestamp)
    (hj : l.get? j = some w) (hw : p w = true)
    (hbefore : ∀ k < j, ∀ v, l.get? k = some v → p v = false) :
    l.find? p = some w := by
  induction l generalizing j with
  | nil => simp at hj
  | cons a as ih =>
    cases j with
    | zero =>
      simp at hj
      subst hj
      simp [List.find?_cons, hw]
    | succ j2 =>
      have ha : p a = false := hbefore 0 (Nat.succ_pos j2) a rfl
      simp only [List.get?_cons_succ] at hj
      rw [List.find?_cons, ha]
      exact ih j2 hj fun k hk v hv =>
        hbefore (k + 1) (Nat.succ_lt_succ hk) v (by simpa using hv)

/-- The concrete word-timestamp entry of the C8 scenario: chunk-local time
range 0.4 to 0.9, character range 6 to 11. -/
def scenarioWord : WordTimestamp := ⟨⟨2/5, 9/10⟩, ⟨6, 11⟩⟩

/-- C8: in a timeline whose chapter 0 starts at 0 and reaches at least 0.6,
with the scenario entry present in the chapter-0 response at position j and
no earlier entry covering relative time 0.6, the lookup at global time 0.6
returns exactly that entry (the record with stream index 0, text range 6 to
11 and global start 0.4); and at global time 1.0 the matched entry is never
the scenario entry in chapter 0, whatever the responses contain: either
nothing matches or a different entry does, because the entry interval is
treated as half-open and 1.0 is not below its end 0.9. -/
theorem word_lookup_half_open (chapters : List StreamChapter)
    (responses : List (List WordTimestamp))
    (ch0 : StreamChapter) (wts : List WordTimestamp) (j : ℕ)
    (hc0 : chapters.get? 0 = some ch0)
    (hstart : ch0.timeRange.start = 0)
    (hreach : (3 : ℚ)/5 ≤ ch0.timeRange.stop)
    (hr0 : responses.get? 0 = some wts)
    (hj : wts.get? j = some scenarioWord)
    (hfirst : ∀ k < j, ∀ v, wts.get? k = some v →
      ¬(v.timeRange.start ≤ 3/5 ∧ (3 : ℚ)/5 < v.timeRange.stop)) :
    getWordAtTime chapters responses (3/5) = some ⟨0, ⟨6, 11⟩, 2/5⟩ ∧
    (∀ n w, getWordEntryAtTime chapters responses 1 = some (n, w) →
      ¬(n = 0 ∧ w = scenarioWord)) := by
  have hlen : 0 < chapters.length := by
    cases chapters with
    | nil => simp at hc0
    | cons a l => simp
  have hrlen : 0 < responses.length := by
    cases responses with
    | nil => simp at hr0
    | cons a l => simp
  constructor
  · have hidx : getChapterIndexAtTime chapters (3/5) = 0 := by
      unfold getChapterIndexAtTime
      cases chapters with
      | nil => simp at hc0
      | cons a l =>
        have ha : a = ch0 := by simpa using hc0
        subst ha
        have hpred : (decide (a.timeRange.start ≤ (3 : ℚ)/5) &&
            decide ((3 : ℚ)/5 ≤ a.timeRange.stop)) = true := by
          simp only [Bool.and_eq_true, decide_eq_true_eq]
          exact ⟨by rw [hstart]; norm_num, hreach⟩
        rw [List.findIdx?_cons]
        simp only [hpred, if_true]
        rfl
    have hfind : wts.find? (fun w =>
        decide (w.timeRange.start ≤ (3 : ℚ)/5 - ch0.timeRange.start) &&
          decide ((3 : ℚ)/5 - ch0.timeRange.start < w.timeRange.stop)) =
        some scenarioWord := by
      apply find_first_at wts _ j scenarioWord hj
      · rw [hstart]
        simp only [Bool.and_eq_true, decide_eq_true_eq, sub_zero]
        refine ⟨by norm_num [scenarioWord], by norm_num [scenarioWord]⟩
      · intro k hk v hv
        have h := hfirst k hk v hv
        rw [hstart]
        simp only [sub_zero, Bool.and_eq_false_iff, decide_eq_false_iff_not]
        by_contra hcon
        push_neg at hcon
        exact h ⟨hcon.1, hcon.2⟩
    have hentry : getWordEntryAtTime chapters responses (3/5) =
        some (0, scenarioWord) := by
      unfold getWordEntryAtTime
      rw [hidx]
      rw [if_neg (by decide)]
      rw [if_neg (by simp only [Int.toNat_zero]; omega)]
      simp only [Int.toNat_zero, hc0, hr0]
      rw [hfind]
    unfold getWordAtTime
    rw [hentry]
    simp only [hc0]
    rw [hstart]
    norm_num [scenarioWord]
  · rintro n w hw ⟨rfl, rfl⟩
    unfold getWordEntryAtTime at hw
    by_cases h1 : getChapterIndexAtTime chapters 1 = -1
    · rw [if_pos h1] at hw
      exact absurd hw (by simp)
    · rw [if_neg h1] at hw
      by_cases h2 : (getChapterIndexAtTime chapters 1).toNat ≥ chapters.length ∨
          (getChapterIndexAtTime chapters 1).toNat ≥ responses.length
      · rw [if_pos h2] at hw
        exact absurd hw (by simp)
      · rw [if_neg h2] at hw
        rcases hget : chapters.get? (getChapterIndexAtTime chapters 1).toNat with _ | ch
        · rw [hget] at hw
          exact absurd hw (by simp)
        · rcases hrget : responses.get? (getChapterIndexAtTime chapters 1).toNat with _ | ws
          · rw [hget, hrget] at hw
            exact absurd hw (by simp)
          · rw [hget, hrget] at hw
            dsimp only [] at hw
            rcases hfind2 : ws.find? (fun v =>
                decide (v.timeRange.start ≤ (1 : ℚ) - ch.timeRange.start) &&
                  decide ((1 : ℚ) - ch.timeRange.start < v.timeRange.stop)) with _ | v
            · rw [hfind2] at hw
              exact absurd hw (by simp)
            · rw [hfind2] at hw
              simp only [Option.some.injEq, Prod.mk.injEq] at hw
              obtain ⟨hn, rfl⟩ := hw
              have hch : ch = ch0 := by
                rw [hn] at hget
                rw [hget] at hc0
                exact Option.some.inj hc0
              have hp := List.find?_some hfind2
              rw [hch, hstart] at hp
              simp only [sub_zero, Bool.and_eq_true, decide_eq_true_eq] at hp
              have : (1 : ℚ) < 9/10 := by
                simpa [scenarioWord] using hp.2
              norm_num at this

theorem word_lookup_half_open_witness :
    getWordAtTime [⟨⟨0, 2⟩⟩] [[scenarioWord]] (3/5) = some ⟨0, ⟨6, 11⟩, 2/5⟩ :=
  (word_lookup_half_open [⟨⟨0, 2⟩⟩] [[scenarioWord]] ⟨⟨0, 2⟩⟩ [scenarioWord] 0
    rfl rfl (by norm_num) rfl rfl
    (fun k hk => absurd hk (Nat.not_lt_zero k))).1

/-!
Time-to-text synchronizer, playback control: TTSService.playSegment,
TTSService._onStreamUpdate, TTSService.pause and TTSService._updateHighlight
(src/services/TTSService.ts, lines 101-253).

The audio-service collaborator below the TTSService is reduced to the
fields the TTSService reads and writes through it: the chapter list, the
response list, the streamFinished flag, the playback cursor and the
preferred playback state.  Modelled from the spec: the AudioService variant
wired to this TTSService (exposing streamFinished, onStreamUpdate and the
state-change forwarding) is not part of the sources; per the spec it
forwards play/pause to the underlying AudioStream/MediaController, whose
code in the sources sets the preferred state and emits the state-change
synchronously, and it emits onStreamUpdate when a new chapter arrives.
The state-change emission reaches TTSService._onStateChange synchronously,
which is inlined below at each play/pause site.  The underlying play
attempt is modelled by its synchronous part (the asynchronous policy-denial
rollback is the MediaController concern proved above). -/
structure TSvc where
  chapters : List StreamChapter
  responses : List (List WordTimestamp)
  finished : Bool
  currentTime : ℚ
  playState : PlaybackState
deriving DecidableEq, Repr

/-- State of the TTSService: the collaborator state, the number of text
segments, the buffering flags, the recorded playSegment request, the
playing flag, the last highlighted word, and observable outputs (state
events, buffering events and console warnings). -/
structure TTS where
  svc : TSvc
  segmentsCount : ℕ
  notLoadedBuffering : Bool
  bufferingFlag : Bool
  playSegmentIndex : Int
  playing : Bool
  lastHighlightedWord : Option WordHit
  stateEvents : List PlaybackState
  bufEvents : List BufferingState
  warnings : ℕ
deriving DecidableEq, Repr

/-- TTSService._updateHighlight: looks up the active word at the cursor;
no word or an unchanged word (same stream index and text-range bounds)
leaves the state alone, otherwise the word becomes the last highlighted
one.  The DOM range resolution and highlight painting have no model
state. -/
def ttsUpdateHighlight (st : TTS) : TTS :=
  match getWordAtTime st.svc.chapters st.svc.responses st.svc.currentTime with
  | none => st
  | some w =>
    match st.lastHighlightedWord with
    | some w0 =>
      if w.streamIndex = w0.streamIndex ∧ w.textRange.start = w0.textRange.start ∧
          w.textRange.stop = w0.textRange.stop then st
      else { st with lastHighlightedWord := some w }
    | none => { st with lastHighlightedWord := some w }

/-- TTSService._onStateChange: records the playing flag, runs one
synchronous highlight pass when entering Play (the first iteration of
_highlightLoop), clears the recorded playSegment request and re-emits the
state. -/
def ttsOnStateChange (st : TTS) (s : PlaybackState) : TTS :=
  let st1 : TTS := { st with playing := decide (s = PlaybackState.play) }
  let st2 : TTS := if s = PlaybackState.play then ttsUpdateHighlight st1 else st1
  { st2 with playSegmentIndex := -1, stateEvents := st2.stateEvents ++ [s] }

/-- Synchronous effect of _audioService.play() and _audioService.pause():
the underlying controller sets its preferred state and emits the state
change, which runs TTSService._onStateChange before the call returns. -/
def svcSetState (st : TTS) (s : PlaybackState) : TTS :=
  ttsOnStateChange { st with svc := { st.svc with playState := s } } s

/-- TTSService.pause: pauses the audio service, then, when a word has been
highlighted before, rewinds the cursor to that word's startTime. -/
def ttsPause (st : TTS) : TTS :=
  let st1 := svcSetState st PlaybackState.pause
  match st1.lastHighlightedWord with
  | none => st1
  | some w => { st1 with svc := { st1.svc with currentTime := w.startTime } }

/-- TTSService.play: delegates to the audio service. -/
def ttsPlay (st : TTS) : TTS := svcSetState st PlaybackState.play

/-- Shared tail of playSegment and _onStreamUpdate: when the service was
buffering, the not-loaded flag is cleared and Ready is emitted unless the
underlying stream itself is still buffering. -/
def ttsClearNotLoaded (st : TTS) : TTS :=
  if st.notLoadedBuffering ∨ st.bufferingFlag then
    if ¬ st.bufferingFlag then
      { st with notLoadedBuffering := false, bufEvents := st.bufEvents ++ [BufferingState.ready] }
    else { st with notLoadedBuffering := false }
  else st

/-- TTSService.playSegment (src/services/TTSService.ts lines 109-139). -/
def ttsPlaySegment (st : TTS) (index : Int) : TTS :=
  if index < 0 ∨ (st.segmentsCount : Int) ≤ index then st
  else if (st.svc.chapters.length : Int) ≤ index then
    if st.svc.finished then { st with warnings := st.warnings + 1 }
    else
      let st1 := ttsPause st
      let st2 : TTS := { st1 with notLoadedBuffering := true }
      let st3 : TTS := { st2 with bufEvents := st2.bufEvents ++ [BufferingState.buffering] }
      { st3 with playSegmentIndex := index }
  else
    match st.svc.chapters.get? index.toNat with
    | none => st
    | some chapter =>
      ttsPlay (ttsClearNotLoaded
        { st with svc := { st.svc with currentTime := chapter.timeRange.start } })

/-- TTSService._onStreamUpdate (src/services/TTSService.ts lines 141-165):
runs when the audio service reports a stream update (a new chapter); a
recorded playSegment request whose chapter now exists seeks to its start
and plays, otherwise the request stays recorded. -/
def ttsOnStreamUpdate (st : TTS) : TTS :=
  if st.playSegmentIndex = -1 then st
  else
    let segmentIndex := st.playSegmentIndex
    let st1 : TTS := { st with playSegmentIndex := -1 }
    if (st1.svc.chapters.length : Int) ≤ segmentIndex then
      { st1 with playSegmentIndex := segmentIndex }
    else
      match st1.svc.chapters.get? segmentIndex.toNat with
      | none => st1
      | some chapter =>
        ttsPlay (ttsClearNotLoaded
          { st1 with svc := { st1.svc with currentTime := chapter.timeRange.start } })

/-- Helper: _updateHighlight touches only the last highlighted word. -/
theorem ttsUpdateHighlight_fields (st : TTS) :
    (ttsUpdateHighlight st).svc = st.svc ∧
    (ttsUpdateHighlight st).playing = st.playing ∧
    (ttsUpdateHighlight st).playSegmentIndex = st.playSegmentIndex ∧
    (ttsUpdateHighlight st).stateEvents = st.stateEvents ∧
    (ttsUpdateHighlight st).bufEvents = st.bufEvents ∧
    (ttsUpdateHighlight st).notLoadedBuffering = st.notLoadedBuffering ∧
    (ttsUpdateHighlight st).bufferingFlag = st.bufferingFlag ∧
    (ttsUpdateHighlight st).warnings = st.warnings ∧
    (ttsUpdateHighlight st).segmentsCount = st.segmentsCount := by
  unfold ttsUpdateHighlight
  split
  · simp
  · split
    · split <;> simp
    · simp

/-- Helper: field effects of _onStateChange. -/
theorem ttsOnStateChange_fields (st : TTS) (s : PlaybackState) :
    (ttsOnStateChange st s).svc = st.svc ∧
    (ttsOnStateChange st s).playSegmentIndex = -1 ∧
    (ttsOnStateChange st s).bufEvents = st.bufEvents ∧
    (ttsOnStateChange st s).notLoadedBuffering = st.notLoadedBuffering ∧
    (ttsOnStateChange st s).bufferingFlag = st.bufferingFlag ∧
    (ttsOnStateChange st s).warnings = st.warnings ∧
    (ttsOnStateChange st s).segmentsCount = st.segmentsCount ∧
    (ttsOnStateChange st s).stateEvents = st.stateEvents ++ [s] ∧
    (s ≠ PlaybackState.play →
      (ttsOnStateChange st s).lastHighlightedWord = st.lastHighlightedWord) := by
  unfold ttsOnStateChange
  dsimp only
  by_cases hs : s = PlaybackState.play
  · rw [if_pos hs]
    obtain ⟨h1, h2, h3, h4, h5, h6, h7, h8, h9⟩ := ttsUpdateHighlight_fields
      { st with playing := decide (s = PlaybackState.play) }
    refine ⟨?_, rfl, ?_, ?_, ?_, ?_, ?_, ?_, fun hns => absurd hs hns⟩ <;>
      simp [h1, h2, h3, h4, h5, h6, h7, h8, h9]
  · rw [if_neg hs]
    exact ⟨rfl, rfl, rfl, rfl, rfl, rfl, rfl, rfl, fun _ => rfl⟩

/-- Helper: field effects of the synchronous play/pause forwarding. -/
theorem svcSetState_fields (st : TTS) (s : PlaybackState) :
    (svcSetState st s).svc = { st.svc with playState := s } ∧
    (svcSetState st s).playSegmentIndex = -1 ∧
    (svcSetState st s).bufEvents = st.bufEvents ∧
    (svcSetState st s).notLoadedBuffering = st.notLoadedBuffering ∧
    (svcSetState st s).bufferingFlag = st.bufferingFlag ∧
    (svcSetState st s).warnings = st.warnings ∧
    (svcSetState st s).segmentsCount = st.segmentsCount ∧
    (s ≠ PlaybackState.play →
      (svcSetState st s).lastHighlightedWord = st.lastHighlightedWord) := by
  unfold svcSetState
  have h := ttsOnStateChange_fields { st with svc := { st.svc with playState := s } } s
  exact ⟨h.1, h.2.1, h.2.2.1, h.2.2.2.1, h.2.2.2.2.1, h.2.2.2.2.2.1,
    h.2.2.2.2.2.2.1, h.2.2.2.2.2.2.2.2⟩

/-- Helper: field effects of TTSService.pause. -/
theorem ttsPause_fields (st : TTS) :
    (ttsPause st).svc.playState = PlaybackState.pause ∧
    (ttsPause st).svc.currentTime =
      (match st.lastHighlightedWord with
        | some w => w.startTime
        | none => st.svc.currentTime) ∧
    (ttsPause st).svc.chapters = st.svc.chapters ∧
    (ttsPause st).svc.finished = st.svc.finished ∧
    (ttsPause st).playSegmentIndex = -1 ∧
    (ttsPause st).bufEvents = st.bufEvents ∧
    (ttsPause st).notLoadedBuffering = st.notLoadedBuffering ∧
    (ttsPause st).bufferingFlag = st.bufferingFlag ∧
    (ttsPause st).warnings = st.warnings ∧
    (ttsPause st).segmentsCount = st.segmentsCount := by
  unfold ttsPause
  dsimp only
  have h := svcSetState_fields st PlaybackState.pause
  have hlast : (svcSetState st PlaybackState.pause).lastHighlightedWord =
      st.lastHighlightedWord := h.2.2.2.2.2.2.2 (by simp)
  rw [hlast]
  cases hw : st.lastHighlightedWord with
  | none =>
    refine ⟨by rw [h.1], by rw [h.1], by rw [h.1], by rw [h.1],
      h.2.1, h.2.2.1, h.2.2.2.1, h.2.2.2.2.1, h.2.2.2.2.2.1, h.2.2.2.2.2.2.1⟩
  | some w =>
    refine ⟨by simp [h.1], by simp, by simp [h.1], by simp [h.1],
      by simp [h.2.1], by simp [h.2.2.1], by simp [h.2.2.2.1],
      by simp [h.2.2.2.2.1], by simp [h.2.2.2.2.2.1], by simp [h.2.2.2.2.2.2.1]⟩

/-- Helper: field effects of TTSService.play. -/
theorem ttsPlay_fields (st : TTS) :
    (ttsPlay st).svc.playState = PlaybackState.play ∧
    (ttsPlay st).svc.currentTime = st.svc.currentTime ∧
    (ttsPlay st).svc.chapters = st.svc.chapters ∧
    (ttsPlay st).playSegmentIndex = -1 := by
  unfold ttsPlay
  have h := svcSetState_fields st PlaybackState.play
  exact ⟨by rw [h.1], by rw [h.1], by rw [h.1], h.2.1⟩

/-- Helper: clearing the not-loaded-buffering flag touches no other part of
the state. -/
theorem ttsClearNotLoaded_fields (st : TTS) :
    (ttsClearNotLoaded st).svc = st.svc ∧
    (ttsClearNotLoaded st).playSegmentIndex = st.playSegmentIndex ∧
    (ttsClearNotLoaded st).warnings = st.warnings ∧
    (ttsClearNotLoaded st).segmentsCount = st.segmentsCount ∧
    (ttsClearNotLoaded st).lastHighlightedWord = st.lastHighlightedWord := by
  unfold ttsClearNotLoaded
  split
  · split <;> exact ⟨rfl, rfl, rfl, rfl, rfl⟩
  · exact ⟨rfl, rfl, rfl, rfl, rfl⟩

/-- C10: TTSService.pause never leaves the cursor where it was when a word
has already been highlighted: it rewinds currentTime to the startTime
recorded for the most recently highlighted word (the global start of that
word); only when no word has been highlighted yet does pause leave the
cursor unchanged.  In both cases the preferred state becomes Pause. -/
theorem pause_rewinds_to_last_word (st : TTS) :
    (∀ w, st.lastHighlightedWord = some w →
      (ttsPause st).svc.currentTime = w.startTime) ∧
    (st.lastHighlightedWord = none →
      (ttsPause st).svc.currentTime = st.svc.currentTime) ∧
    (ttsPause st).svc.playState = PlaybackState.pause := by
  have h := ttsPause_fields st
  refine ⟨?_, ?_, h.1⟩
  · intro w hw
    rw [h.2.1, hw]
  · intro hw
    rw [h.2.1, hw]

theorem pause_rewinds_to_last_word_witness :
    (ttsPause ⟨⟨[], [], false, 7, PlaybackState.play⟩, 3, false, false, -1,
      true, some ⟨0, ⟨6, 11⟩, 2/5⟩, [], [], 0⟩).svc.currentTime = 2/5 :=
  (pause_rewinds_to_last_word ⟨⟨[], [], false, 7, PlaybackState.play⟩, 3,
    false, false, -1, true, some ⟨0, ⟨6, 11⟩, 2/5⟩, [], [], 0⟩).1
    ⟨0, ⟨6, 11⟩, 2/5⟩ rfl

/-- Helper: the seek-then-play tail shared by playSegment and
_onStreamUpdate leaves the cursor where the seek put it, sets Play and
clears the recorded request. -/
theorem ttsPlay_clear_spec (st : TTS) :
    (ttsPlay (ttsClearNotLoaded st)).svc.currentTime = st.svc.currentTime ∧
    (ttsPlay (ttsClearNotLoaded st)).svc.playState = PlaybackState.play ∧
    (ttsPlay (ttsClearNotLoaded st)).playSegmentIndex = -1 := by
  obtain ⟨hclear, -⟩ := ttsClearNotLoaded_fields st
  have hplay := ttsPlay_fields (ttsClearNotLoaded st)
  exact ⟨by rw [hplay.2.1, hclear], hplay.1, hplay.2.2.2⟩

/-- C2: for an index i with 0 <= i < number of segments: when chapter i
already exists, playSegment(i) sets the cursor exactly to that chapter's
start and the preferred state becomes Play; when chapter i does not exist
yet and the pipeline has not finished, playback is paused, Buffering is
emitted and the request is recorded in playSegmentIndex; a stream update on
any state whose recorded request is i and whose chapter list now covers i
seeks the cursor to chapter i's start, sets Play and clears the request,
with no user action; when the pipeline has finished without chapter i the
request is dropped with one console warning and nothing else changes. -/
theorem play_segment_spec (st : TTS) (i : ℕ) (hi : i < st.segmentsCount) :
    (∀ chapter, st.svc.chapters.get? i = some chapter →
      (ttsPlaySegment st i).svc.currentTime = chapter.timeRange.start ∧
      (ttsPlaySegment st i).svc.playState = PlaybackState.play) ∧
    (st.svc.chapters.length ≤ i → st.svc.finished = false →
      (ttsPlaySegment st i).svc.playState = PlaybackState.pause ∧
      (ttsPlaySegment st i).bufEvents = st.bufEvents ++ [BufferingState.buffering] ∧
      (ttsPlaySegment st i).playSegmentIndex = i ∧
      (ttsPlaySegment st i).notLoadedBuffering = true) ∧
    (∀ r : TTS, ∀ chapter2, r.playSegmentIndex = (i : Int) →
      r.svc.chapters.get? i = some chapter2 →
      (ttsOnStreamUpdate r).svc.currentTime = chapter2.timeRange.start ∧
      (ttsOnStreamUpdate r).svc.playState = PlaybackState.play ∧
      (ttsOnStreamUpdate r).playSegmentIndex = -1) ∧
    (st.svc.chapters.length ≤ i → st.svc.finished = true →
      ttsPlaySegment st i = { st with warnings := st.warnings + 1 }) := by
  have hcond1 : ¬((i : Int) < 0 ∨ (st.segmentsCount : Int) ≤ (i : Int)) := by
    push_neg
    constructor
    · positivity
    · exact_mod_cast hi
  refine ⟨?_, ?_, ?_, ?_⟩
  · intro chapter hch
    obtain ⟨hlt, -⟩ := List.get?_eq_some.mp hch
    unfold ttsPlaySegment
    rw [if_neg hcond1]
    rw [if_neg (by push_neg; exact_mod_cast hlt)]
    have htn : ((i : Int)).toNat = i := Int.toNat_natCast i
    rw [htn, hch]
    dsimp only
    exact ⟨by rw [(ttsPlay_clear_spec _).1], (ttsPlay_clear_spec _).2.1⟩
  · intro hlen hfin
    unfold ttsPlaySegment
    rw [if_neg hcond1]
    rw [if_pos (by exact_mod_cast hlen)]
    rw [if_neg (by rw [hfin]; simp)]
    dsimp only
    have h := ttsPause_fields st
    exact ⟨h.1, by rw [h.2.2.2.2.2.1], rfl, rfl⟩
  · intro r chapter2 hidx hch
    obtain ⟨hlt, -⟩ := List.get?_eq_some.mp hch
    unfold ttsOnStreamUpdate
    rw [if_neg (by rw [hidx]; omega)]
    dsimp only
    rw [hidx]
    rw [if_neg (by push_neg; exact_mod_cast hlt)]
    have htn : ((i : Int)).toNat = i := Int.toNat_natCast i
    rw [htn, hch]
    dsimp only
    exact ⟨by rw [(ttsPlay_clear_spec _).1], (ttsPlay_clear_spec _).2.1,
      (ttsPlay_clear_spec _).2.2⟩
  · intro hlen hfin
    unfold ttsPlaySegment
    rw [if_neg hcond1]
    rw [if_pos (by exact_mod_cast hlen)]
    rw [if_pos hfin]

theorem play_segment_spec_witness :
    (ttsPlaySegment ⟨⟨[⟨⟨0, 2⟩⟩], [[scenarioWord]], false, 0, PlaybackState.pause⟩,
        2, false, false, -1, false, none, [], [], 0⟩ 0).svc.currentTime = 0 ∧
    (ttsPlaySegment ⟨⟨[⟨⟨0, 2⟩⟩], [[scenarioWord]], false, 0, PlaybackState.pause⟩,
        2, false, false, -1, false, none, [], [], 0⟩ 0).svc.playState =
      PlaybackState.play := by
  have h := (play_segment_spec ⟨⟨[⟨⟨0, 2⟩⟩], [[scenarioWord]], false, 0,
      PlaybackState.pause⟩, 2, false, false, -1, false, none, [], [], 0⟩ 0
    (by norm_num)).1 ⟨⟨0, 2⟩⟩ rfl
  exact h

/-!
Timeline compositor: StreamingAudio (src/libs/StreamingAudio.ts) and
AudioReader.load (unnamed part_005, lines 91-125).

Chunks carry their virtual time range and, lazily, a per-chunk media
controller reduced to its local time and preferred state.  Event emissions
of the per-chunk MediaController reach the StreamingAudio listeners
synchronously; their effects (the _onChunkEnded cascade and its guards) are
inlined at each call site that transitions a controller.  Native media
events (the element reporting playback progress or its natural end) are
environment-driven and outside the modelled transitions, which cover the
API-driven paths the claims are about: next, end, play, pause, setting
currentTime. -/
structure Ctrl where
  localTime : ℚ
  preferred : PlaybackState
deriving DecidableEq, Repr

/-- AudioChunk of StreamingAudio: virtual start and end plus the lazily
created controller (the raw bytes and mime type do not influence any
modelled transition beyond the decoded duration). -/
structure Chunk where
  start : ℚ
  stop : ℚ
  ctrl : Option Ctrl
deriving DecidableEq, Repr

/-- Notifications emitted by StreamingAudio. -/
inductive SAEvent where
  | stateChange (s : PlaybackState)
  | bufferingChange (b : BufferingState)
  | timeUpdate (t : ℚ)
  | durationChange (d : ℚ)
  | seeking (t : ℚ)
  | bufferAppended
  | bufferEnd
deriving DecidableEq, Repr

/-- State of a StreamingAudio instance. -/
structure SA where
  chunks : List Chunk
  duration : ℚ
  currentTime : ℚ
  ended : Bool
  preferred : PlaybackState
  bufferingState : BufferingState
  currentChunkIndex : Int
  events : List SAEvent
deriving DecidableEq, Repr

/-- Freshly constructed StreamingAudio. -/
def SA.init : SA := ⟨[], 0, 0, false, PlaybackState.pause, BufferingState.ready, -1, []⟩

/-- Emission on one of the notification channels. -/
def SA.emit (st : SA) (e : SAEvent) : SA := { st with events := st.events ++ [e] }

/-- StreamingAudio._emitBufferingState. -/
def SA.emitBufferingState (st : SA) (b : BufferingState) : SA :=
  { st with bufferingState := b, events := st.events ++ [SAEvent.bufferingChange b] }

/-- JavaScript Array.prototype.at index resolution: negative indices count
from the end of the array.  The source stores -1 in _currentChunkIndex for
"no active chunk" but reads chunks through chunks.at(_currentChunkIndex),
so with a nonempty list that read yields the last chunk. -/
def jsResolve (len : ℕ) (i : Int) : Option ℕ :=
  if 0 ≤ i then (if i < (len : Int) then some i.toNat else none)
  else (if 0 ≤ (len : Int) + i then some ((len : Int) + i).toNat else none)

/-- Modify the chunk at a nonnegative position. -/
def modChunkNat (st : SA) (n : ℕ) (f : Chunk → Chunk) : SA :=
  match st.chunks.get? n with
  | some c => { st with chunks := st.chunks.set n (f c) }
  | none => st

/-- Modify the chunk found by chunks.at(i). -/
def modChunkJs (st : SA) (i : Int) (f : Chunk → Chunk) : SA :=
  match jsResolve st.chunks.length i with
  | some n => modChunkNat st n f
  | none => st

/-- MediaController.setPlaybackState reduced to its field effect. -/
def setCtrlPreferred (p : PlaybackState) (c : Chunk) : Chunk :=
  { c with ctrl := c.ctrl.map fun k => { k with preferred := p } }

/-- MediaController currentTime setter reduced to its field effect. -/
def setCtrlLocalTime (t : ℚ) (c : Chunk) : Chunk :=
  { c with ctrl := c.ctrl.map fun k => { k with localTime := t } }

/-- StreamingAudio._findChunkIndexForTime: first chunk whose half-open
range contains the time, else -1. -/
def findChunkIndexForTime (chunks : List Chunk) (t : ℚ) : Int :=
  match chunks.findIdx? (fun c => decide (t ≥ c.start) && decide (t < c.stop)) with
  | some i => (i : Int)
  | none => -1

/-- StreamingAudio._ensureMediaController: lazily creates the controller
(fresh audio element: local time 0, preferred Pause). -/
def ensureMediaController (st : SA) (n : ℕ) : SA :=
  match st.chunks.get? n with
  | none => st
  | some c =>
    match c.ctrl with
    | some _ => st
    | none => { st with chunks := st.chunks.set n { c with ctrl := some ⟨0, PlaybackState.pause⟩ } }

/-- Controller part of StreamingAudio.setPlaybackState(Ended): forcibly end
the controller of chunks.at(_currentChunkIndex).  Returns the resolved
position when the controller actually transitioned (and hence emitted its
state change, whose listener may cascade). -/
def applyEndedToActiveCtrl (st : SA) : SA × Option ℕ :=
  match jsResolve st.chunks.length st.currentChunkIndex with
  | none => (st, none)
  | some n =>
    match st.chunks.get? n with
    | none => (st, none)
    | some c =>
      match c.ctrl with
      | none => (st, none)
      | some k =>
        if k.preferred = PlaybackState.ended then (st, none)
        else
          let c2 : Chunk := { c with ctrl := some { k with preferred := PlaybackState.ended } }
          ({ st with chunks := st.chunks.set n c2 }, some n)

/-- StreamingAudio._onChunkEnded: with a successor chunk, the cursor jumps
to the ended chunk's stop, the successor becomes active (controller created
if needed, local time 0) and resumes when Play is preferred; with no
successor and ended input the whole playback is finalized as Ended; with no
successor and open input it buffers.  In the finalize branch the inlined
setPlaybackState(Ended) transitions the active controller, whose emission
re-enters this handler at the same position; that re-entrant call reaches a
setPlaybackState(Ended) that is a no-op because preferred is already Ended,
so the net effect of the cascade beyond the controller update is none and
it is not repeated here. -/
def onChunkEnded (st : SA) (idx : ℕ) : SA :=
  if idx + 1 < st.chunks.length then
    match st.chunks.get? idx with
    | none => st
    | some c =>
      let st1 := SA.emit { st with currentTime := c.stop } (SAEvent.timeUpdate c.stop)
      let st2 : SA := { st1 with currentChunkIndex := ((idx : Int) + 1) }
      let st3 := ensureMediaController st2 (idx + 1)
      let st4 := modChunkNat st3 (idx + 1) (setCtrlLocalTime 0)
      if st4.preferred = PlaybackState.play then
        modChunkNat st4 (idx + 1) (setCtrlPreferred PlaybackState.play)
      else st4
  else
    if st.ended = true ∧ st.currentTime ≥ st.duration then
      if st.preferred = PlaybackState.ended then st
      else
        (applyEndedToActiveCtrl (SA.emit { st with preferred := PlaybackState.ended }
          (SAEvent.stateChange PlaybackState.ended))).1
    else
      SA.emitBufferingState st BufferingState.buffering

/-- Ended branch of StreamingAudio.setPlaybackState: set the preference,
emit, force the active controller to Ended; a transitioning controller
emits its state change, and the listener runs _onChunkEnded when the stored
creation index equals _currentChunkIndex (which filters out the negative
index wrap of chunks.at). -/
def setEnded (st : SA) : SA :=
  let st1 := SA.emit { st with preferred := PlaybackState.ended }
    (SAEvent.stateChange PlaybackState.ended)
  match applyEndedToActiveCtrl st1 with
  | (st2, none) => st2
  | (st2, some n) =>
    if st2.currentChunkIndex = (n : Int) then onChunkEnded st2 n else st2

/-- StreamingAudio.setPlaybackState(Ended) including its same-state guard. -/
def saSetEnded (st : SA) : SA :=
  if st.preferred = PlaybackState.ended then st else setEnded st

/-- StreamingAudio._selectChunkForCurrentTime. -/
def selectChunkForCurrentTime (st : SA) (force : Bool) : SA :=
  let idx := findChunkIndexForTime st.chunks st.currentTime
  if idx = st.currentChunkIndex ∧ force = false then st
  else if idx < 0 ∧ st.ended = false then
    { (SA.emitBufferingState st BufferingState.buffering) with currentChunkIndex := -1 }
  else if idx < 0 ∧ st.ended = true then
    saSetEnded st
  else
    let oldIdx := st.currentChunkIndex
    let st1 : SA := { st with currentChunkIndex := idx }
    let st2 := modChunkJs st1 oldIdx (setCtrlPreferred PlaybackState.pause)
    let st3 := ensureMediaController st2 idx.toNat
    let st4 := modChunkNat st3 idx.toNat (fun c => setCtrlLocalTime (st3.currentTime - c.start) c)
    match st4.preferred with
    | PlaybackState.play => modChunkNat st4 idx.toNat (setCtrlPreferred PlaybackState.play)
    | PlaybackState.pause => modChunkNat st4 idx.toNat (setCtrlPreferred PlaybackState.pause)
    | PlaybackState.ended =>
      match st4.chunks.get? idx.toNat with
      | none => st4
      | some c =>
        match c.ctrl with
        | none => st4
        | some k =>
          if k.preferred = PlaybackState.ended then st4
          else onChunkEnded (modChunkNat st4 idx.toNat (setCtrlPreferred PlaybackState.ended)) idx.toNat

/-- StreamingAudio._selectActiveChunkAndPlay. -/
def selectActiveChunkAndPlay (st : SA) : SA :=
  if st.preferred ≠ PlaybackState.play then st
  else
    let st1 := selectChunkForCurrentTime st false
    modChunkJs st1 st1.currentChunkIndex (setCtrlPreferred PlaybackState.play)

/-- StreamingAudio._seekTo. -/
def seekTo (st : SA) (v : ℚ) : SA :=
  let st1 : SA := { st with currentTime := v }
  let st2 :=
    if st1.currentTime > st1.duration then
      if st1.ended = false then st1
      else saSetEnded { st1 with currentTime := st1.duration }
    else st1
  let st3 := SA.emit st2 (SAEvent.seeking st2.currentTime)
  let st4 := SA.emit st3 (SAEvent.timeUpdate st3.currentTime)
  if st4.currentTime ≤ st4.duration ∧ st4.preferred ≠ PlaybackState.ended then
    selectChunkForCurrentTime st4 true
  else st4

/-- StreamingAudio.play. -/
def saPlay (st : SA) : SA :=
  let st1 := if st.preferred = PlaybackState.ended then seekTo st 0 else st
  let st2 := SA.emit { st1 with preferred := PlaybackState.play }
    (SAEvent.stateChange PlaybackState.play)
  selectActiveChunkAndPlay st2

/-- StreamingAudio.pause. -/
def saPause (st : SA) : SA :=
  if st.preferred = PlaybackState.ended then st
  else
    let st1 := SA.emit { st with preferred := PlaybackState.pause }
      (SAEvent.stateChange PlaybackState.pause)
    modChunkJs st1 st1.currentChunkIndex (setCtrlPreferred PlaybackState.pause)

/-- StreamingAudio.setPlaybackState. -/
def saSetPlaybackState (st : SA) (s : PlaybackState) : SA :=
  if st.preferred = s then st
  else match s with
    | PlaybackState.ended => setEnded st
    | PlaybackState.play => saPlay st
    | PlaybackState.pause => saPause st

/-- StreamingAudio.next after a successful duration decode: the chunk is
appended at the running duration, the duration advances, notifications
fire, and a Play preference re-runs chunk selection. -/
def saNextOk (st : SA) (d : ℚ) : SA :=
  let st0 : SA := { st with chunks := st.chunks ++ [⟨st.duration, st.duration + d, none⟩] }
  let st1 : SA := { st0 with duration := st.duration + d }
  let st2 := SA.emit st1 SAEvent.bufferAppended
  let st3 := SA.emit st2 (SAEvent.durationChange st2.duration)
  if st3.preferred = PlaybackState.play then selectActiveChunkAndPlay st3 else st3

/-- StreamingAudio.next with the decode outcome as input: next awaits
_decodeAudioDuration before touching any state, and a decode rejection
propagates out of next(), so the chunk is not registered and the promise
rejects. -/
def saNext (st : SA) (decode : Except Unit ℚ) : Except Unit SA :=
  match decode with
  | .error e => .error e
  | .ok d => .ok (saNextOk st d)

/-- StreamingAudio.end. -/
def saEnd (st : SA) : SA :=
  let st1 := SA.emit { st with ended := true } SAEvent.bufferEnd
  if st1.currentTime ≥ st1.duration then saSetEnded st1 else st1

/-- Helper: chunk-field modification preserves the running duration. -/
theorem modChunkNat_duration (st : SA) (n : ℕ) (f : Chunk → Chunk) :
    (modChunkNat st n f).duration = st.duration := by
  unfold modChunkNat
  split <;> rfl

theorem modChunkJs_duration (st : SA) (i : Int) (f : Chunk → Chunk) :
    (modChunkJs st i f).duration = st.duration := by
  unfold modChunkJs
  split
  · exact modChunkNat_duration _ _ _
  · rfl

theorem ensureMediaController_duration (st : SA) (n : ℕ) :
    (ensureMediaController st n).duration = st.duration := by
  unfold ensureMediaController
  split
  · rfl
  · split <;> rfl

theorem applyEndedToActiveCtrl_duration (st : SA) :
    (applyEndedToActiveCtrl st).1.duration = st.duration := by
  unfold applyEndedToActiveCtrl
  split
  · rfl
  · split
    · rfl
    · split
      · rfl
      · split <;> rfl

theorem onChunkEnded_duration (st : SA) (idx : ℕ) :
    (onChunkEnded st idx).duration = st.duration := by
  unfold onChunkEnded
  repeat' split
  all_goals simp [modChunkNat_duration, ensureMediaController_duration,
    applyEndedToActiveCtrl_duration, SA.emit, SA.emitBufferingState,
    apply_ite (fun s : SA => s.duration)]

theorem setEnded_duration (st : SA) :
    (setEnded st).duration = st.duration := by
  unfold setEnded
  dsimp only
  split
  · rename_i st2 heq
    have h2 : (applyEndedToActiveCtrl (SA.emit
        { st with preferred := PlaybackState.ended }
        (SAEvent.stateChange PlaybackState.ended))).1 = st2 := by
      rw [heq]
    rw [← h2, applyEndedToActiveCtrl_duration]
    rfl
  · rename_i st2 n heq
    have h2 : (applyEndedToActiveCtrl (SA.emit
        { st with preferred := PlaybackState.ended }
        (SAEvent.stateChange PlaybackState.ended))).1 = st2 := by
      rw [heq]
    split
    · rw [onChunkEnded_duration, ← h2, applyEndedToActiveCtrl_duration]
      rfl
    · rw [← h2, applyEndedToActiveCtrl_duration]
      rfl

theorem saSetEnded_duration (st : SA) :
    (saSetEnded st).duration = st.duration := by
  unfold saSetEnded
  split
  · rfl
  · exact setEnded_duration st

theorem selectChunkForCurrentTime_duration (st : SA) (force : Bool) :
    (selectChunkForCurrentTime st force).duration = st.duration := by
  unfold selectChunkForCurrentTime
  dsimp only
  repeat' split
  all_goals simp [modChunkNat_duration, modChunkJs_duration,
    ensureMediaController_duration, saSetEnded_duration, onChunkEnded_duration,
    SA.emit, SA.emitBufferingState, apply_ite (fun s : SA => s.duration)]

theorem selectActiveChunkAndPlay_duration (st : SA) :
    (selectActiveChunkAndPlay st).duration = st.duration := by
  unfold selectActiveChunkAndPlay
  split
  · rfl
  · rw [modChunkJs_duration, selectChunkForCurrentTime_duration]

theorem saNextOk_duration (st : SA) (d : ℚ) :
    (saNextOk st d).duration = st.duration + d := by
  unfold saNextOk
  dsimp only
  split
  · rw [selectActiveChunkAndPlay_duration]
    rfl
  · rfl

theorem saEnd_duration (st : SA) :
    (saEnd st).duration = st.duration := by
  unfold saEnd
  dsimp only
  split
  · rw [saSetEnded_duration]
    rfl
  · rfl


/-!
AudioReader.load (unnamed part_005, lines 91-125): for each segment stream
it records start := audio.duration, drains the stream, hands the
concatenated buffers to audio.next when any arrived, records end :=
audio.duration, and yields the chapter; after the last stream it calls
audio.end().  A segment is modelled by the decode duration of its drained
bytes, or none for a stream that produced no buffers (next is skipped).
Segments whose chunk decodes are the consumed-in-order case the claim is
about; a decode failure would abort load (see the claim on decode
failures). -/
def loadChapters : SA → List (Option ℚ) → SA × List StreamChapter
  | st, [] => (st, [])
  | st, seg :: rest =>
    let start := st.duration
    let st1 := match seg with
      | none => st
      | some d => saNextOk st d
    let stop := st1.duration
    let p := loadChapters st1 rest
    (p.1, ⟨⟨start, stop⟩⟩ :: p.2)

/-- Full run of AudioService._load over a fresh StreamingAudio: consume all
segment streams, then call audio.end(). -/
def loadRun (segs : List (Option ℚ)) : SA × List StreamChapter :=
  let p := loadChapters SA.init segs
  (saEnd p.1, p.2)

/-- Chapters chain from a base time: each starts where its predecessor
ends. -/
def Chained : ℚ → List StreamChapter → Prop
  | _, [] => True
  | d, c :: cs => c.timeRange.start = d ∧ Chained c.timeRange.stop cs

/-- End of a chapter chain: the stop of the last chapter, or the base when
there is none. -/
def chainEnd (d : ℚ) : List StreamChapter → ℚ
  | [] => d
  | c :: cs => chainEnd c.timeRange.stop cs

theorem loadChapters_chain (segs : List (Option ℚ)) (st : SA) :
    Chained st.duration (loadChapters st segs).2 ∧
    (loadChapters st segs).1.duration = chainEnd st.duration (loadChapters st segs).2 ∧
    (loadChapters st segs).2.length = segs.length := by
  induction segs generalizing st with
  | nil => exact ⟨trivial, rfl, rfl⟩
  | cons seg rest ih =>
    simp only [loadChapters]
    cases seg with
    | none =>
      dsimp only
      have h := ih st
      exact ⟨⟨rfl, h.1⟩, h.2.1, by simp [h.2.2]⟩
    | some d =>
      dsimp only
      have h := ih (saNextOk st d)
      exact ⟨⟨rfl, h.1⟩, h.2.1, by simp [h.2.2]⟩

theorem loadChapters_append (st : SA) (segs more : List (Option ℚ)) :
    (loadChapters st (segs ++ more)).2 =
      (loadChapters st segs).2 ++ (loadChapters (loadChapters st segs).1 more).2 := by
  induction segs generalizing st with
  | nil => simp [loadChapters]
  | cons seg rest ih =>
    cases seg with
    | none =>
      simp only [List.cons_append, loadChapters]
      exact congrArg _ (ih st)
    | some d =>
      simp only [List.cons_append, loadChapters]
      exact congrArg _ (ih (saNextOk st d))

/-- Helper: consecutive elements of a chapter chain meet exactly. -/
theorem chained_consec (chs : List StreamChapter) (d : ℚ) (i : ℕ)
    (a b : StreamChapter) (hch : Chained d chs)
    (ha : chs.get? i = some a) (hb : chs.get? (i + 1) = some b) :
    b.timeRange.start = a.timeRange.stop := by
  induction chs generalizing d i with
  | nil => simp at ha
  | cons c cs ih =>
    cases i with
    | zero =>
      simp only [List.get?_cons_zero, Option.some.injEq] at ha
      subst ha
      simp only [List.get?_cons_succ] at hb
      cases cs with
      | nil => simp at hb
      | cons c2 cs2 =>
        cases hb2 : ([c2] ++ cs2 : List StreamChapter).get? 0 with
        | none => simp at hb2
        | some _ =>
          simp only [List.get?_cons_zero, Option.some.injEq] at hb
          subst hb
          exact hch.2.1
    | succ i2 =>
      simp only [List.get?_cons_succ] at ha hb
      exact ih c.timeRange.stop i2 hch.2 ha hb

/-- Helper: the chain end is the stop of the last chapter. -/
theorem chainEnd_getLast (chs : List StreamChapter) (d : ℚ) (c : StreamChapter)
    (hlast : chs.getLast? = some c) :
    chainEnd d chs = c.timeRange.stop := by
  induction chs generalizing d with
  | nil => simp at hlast
  | cons a as ih =>
    cases as with
    | nil =>
      simp only [List.getLast?_singleton, Option.some.injEq] at hlast
      subst hlast
      rfl
    | cons a2 as2 =>
      rw [List.getLast?_cons_cons] at hlast
      exact ih a.timeRange.stop hlast

/-- Helper: the head of a chapter chain starts at the base. -/
theorem chained_head (chs : List StreamChapter) (d : ℚ) (c : StreamChapter)
    (hch : Chained d chs) (hc : chs.head? = some c) :
    c.timeRange.start = d := by
  cases chs with
  | nil => simp at hc
  | cons a as =>
    simp only [List.head?_cons, Option.some.injEq] at hc
    subst hc
    exact hch.1

/-- C1: for every finite list of segment streams consumed in order from a
fresh timeline, the produced chapters partition the virtual timeline:
chapter 0 starts at 0, every later chapter starts exactly where its
predecessor ends, the last chapter ends at the total duration the timeline
has reached at that point (also after end() fires), exactly one chapter
exists per consumed segment (so the count never exceeds the number of text
segments), and consuming further segments only appends chapters, so the
chapter count is monotonically non-decreasing. -/
theorem chapters_partition_timeline (segs more : List (Option ℚ)) :
    (∀ c, (loadRun segs).2.head? = some c → c.timeRange.start = 0) ∧
    (∀ i a b, (loadRun segs).2.get? i = some a →
      (loadRun segs).2.get? (i + 1) = some b →
      b.timeRange.start = a.timeRange.stop) ∧
    (∀ c, (loadRun segs).2.getLast? = some c →
      c.timeRange.stop = (loadRun segs).1.duration) ∧
    (loadRun segs).2.length = segs.length ∧
    (∃ tail, (loadChapters SA.init (segs ++ more)).2 =
      (loadRun segs).2 ++ tail) := by
  obtain ⟨hchain, hdur, hlen⟩ := loadChapters_chain segs SA.init
  have hinit : SA.init.duration = 0 := rfl
  rw [hinit] at hchain hdur
  refine ⟨?_, ?_, ?_, ?_, ?_⟩
  · intro c hc
    exact chained_head _ 0 c hchain hc
  · intro i a b ha hb
    exact chained_consec _ 0 i a b hchain ha hb
  · intro c hc
    have hend : (loadRun segs).1.duration = (loadChapters SA.init segs).1.duration := by
      unfold loadRun
      exact saEnd_duration _
    rw [hend, hdur]
    exact (chainEnd_getLast _ 0 c hc).symm
  · exact hlen
  · exact ⟨(loadChapters (loadChapters SA.init segs).1 more).2,
      loadChapters_append SA.init segs more⟩

theorem chapters_partition_timeline_witness :
    (loadRun [some 2, none, some (7/2)]).2 = [⟨⟨0, 2⟩⟩, ⟨⟨2, 2⟩⟩, ⟨⟨2, 11/2⟩⟩] ∧
    (loadRun [some 2, none, some (7/2)]).1.duration = 11/2 := by
  have h1 : (saNextOk SA.init 2).duration = 2 := by
    rw [saNextOk_duration]
    norm_num [SA.init]
  have h2 : (saNextOk (saNextOk SA.init 2) (7/2)).duration = 11/2 := by
    rw [saNextOk_duration, h1]
    norm_num
  have hlist : (loadRun [some 2, none, some (7/2)]).2 =
      [⟨⟨0, 2⟩⟩, ⟨⟨2, 2⟩⟩, ⟨⟨2, 11/2⟩⟩] := by
    simp only [loadRun, loadChapters]
    rw [h1, h2]
    norm_num [SA.init]
  refine ⟨hlist, ?_⟩
  have h := (chapters_partition_timeline [some 2, none, some (7/2)] []).2.2.1
    ⟨⟨2, 11/2⟩⟩ (by rw [hlist]; rfl)
  simpa using h.symm

/-- Helper simp lemmas: emissions only append to the event list. -/
@[simp] theorem SA.emit_chunks (st : SA) (e : SAEvent) : (st.emit e).chunks = st.chunks := rfl

@[simp] theorem SA.emit_duration (st : SA) (e : SAEvent) : (st.emit e).duration = st.duration := rfl

@[simp] theorem SA.emit_currentTime (st : SA) (e : SAEvent) : (st.emit e).currentTime = st.currentTime := rfl

@[simp] theorem SA.emit_preferred (st : SA) (e : SAEvent) : (st.emit e).preferred = st.preferred := rfl

@[simp] theorem SA.emit_ended (st : SA) (e : SAEvent) : (st.emit e).ended = st.ended := rfl

@[simp] theorem SA.emit_bufferingState (st : SA) (e : SAEvent) : (st.emit e).bufferingState = st.bufferingState := rfl

@[simp] theorem SA.emit_currentChunkIndex (st : SA) (e : SAEvent) : (st.emit e).currentChunkIndex = st.currentChunkIndex := rfl

/-- Position of the chunk whose controller transitions when the compositor
is forced to Ended, when that transition re-enters _onChunkEnded with a
successor chunk present: the active position holds a live controller not
yet ended, the raw index equals the resolved one (ruling out the negative
index wrap, which the listener guard filters), and a successor exists. -/
def endedCascadeIndex (st : SA) : Option ℕ :=
  if st.preferred = PlaybackState.ended then none
  else
    match jsResolve st.chunks.length st.currentChunkIndex with
    | none => none
    | some n =>
      match st.chunks.get? n with
      | none => none
      | some c =>
        match c.ctrl with
        | none => none
        | some k =>
          if k.preferred ≠ PlaybackState.ended ∧ st.currentChunkIndex = (n : Int) ∧
              n + 1 < st.chunks.length then some n
          else none

/-- Cursor value a past-the-end seek on ended input settles at: the total
duration, unless the forced-Ended cascade advances past the active chunk,
in which case the cursor is left at that chunk's end. -/
def seekPastEndTarget (st : SA) : ℚ :=
  match endedCascadeIndex st with
  | some n =>
    match st.chunks.get? n with
    | some c => c.stop
    | none => st.duration
  | none => st.duration

/-- Helper simp lemmas: chunk-field modification and lazy controller
creation leave every scalar field of the state unchanged. -/
@[simp] theorem modChunkNat_currentTime (st : SA) (n : ℕ) (f : Chunk → Chunk) :
    (modChunkNat st n f).currentTime = st.currentTime := by
  unfold modChunkNat
  split <;> rfl

@[simp] theorem modChunkNat_preferred (st : SA) (n : ℕ) (f : Chunk → Chunk) :
    (modChunkNat st n f).preferred = st.preferred := by
  unfold modChunkNat
  split <;> rfl

@[simp] theorem modChunkNat_ended (st : SA) (n : ℕ) (f : Chunk → Chunk) :
    (modChunkNat st n f).ended = st.ended := by
  unfold modChunkNat
  split <;> rfl

@[simp] theorem modChunkNat_bufferingState (st : SA) (n : ℕ) (f : Chunk → Chunk) :
    (modChunkNat st n f).bufferingState = st.bufferingState := by
  unfold modChunkNat
  split <;> rfl

@[simp] theorem modChunkNat_length (st : SA) (n : ℕ) (f : Chunk → Chunk) :
    (modChunkNat st n f).chunks.length = st.chunks.length := by
  unfold modChunkNat
  split <;> simp

@[simp] theorem ensureMediaController_currentTime (st : SA) (n : ℕ) :
    (ensureMediaController st n).currentTime = st.currentTime := by
  unfold ensureMediaController
  split
  · rfl
  · split <;> rfl

@[simp] theorem ensureMediaController_preferred (st : SA) (n : ℕ) :
    (ensureMediaController st n).preferred = st.preferred := by
  unfold ensureMediaController
  split
  · rfl
  · split <;> rfl

@[simp] theorem ensureMediaController_ended (st : SA) (n : ℕ) :
    (ensureMediaController st n).ended = st.ended := by
  unfold ensureMediaController
  split
  · rfl
  · split <;> rfl

@[simp] theorem ensureMediaController_length (st : SA) (n : ℕ) :
    (ensureMediaController st n).chunks.length = st.chunks.length := by
  unfold ensureMediaController
  split
  · rfl
  · split
    · rfl
    · simp

/-- Helper: _onChunkEnded with a successor chunk and a non-Play preference
leaves the cursor at the ended chunk's stop and keeps the preference. -/
theorem onChunkEnded_advance (st : SA) (idx : ℕ) (c : Chunk)
    (hget : st.chunks.get? idx = some c) (hsucc : idx + 1 < st.chunks.length)
    (hpref : st.preferred ≠ PlaybackState.play) :
    (onChunkEnded st idx).currentTime = c.stop ∧
    (onChunkEnded st idx).preferred = st.preferred := by
  unfold onChunkEnded
  rw [if_pos hsucc, hget]
  dsimp only
  have hp4 : (modChunkNat (ensureMediaController
      { (SA.emit { st with currentTime := c.stop } (SAEvent.timeUpdate c.stop)) with
        currentChunkIndex := ((idx : Int) + 1) } (idx + 1)) (idx + 1)
      (setCtrlLocalTime 0)).preferred = st.preferred := by
    simp
  rw [if_neg (by rw [hp4]; exact hpref)]
  refine ⟨by simp, hp4⟩

/-- Helper: _onChunkEnded with no successor on an ended timeline whose
cursor is at or past the duration, entered with an already-Ended
preference, is a no-op. -/
theorem onChunkEnded_noSucc (st : SA) (idx : ℕ)
    (hsucc : ¬idx + 1 < st.chunks.length) (hend : st.ended = true)
    (hct : st.currentTime ≥ st.duration)
    (hpref : st.preferred = PlaybackState.ended) :
    onChunkEnded st idx = st := by
  unfold onChunkEnded
  rw [if_neg hsucc, if_pos ⟨hend, hct⟩, if_pos hpref]

/-- Helper: behaviour of the forced-Ended transition on a state whose input
has ended with the cursor at or past the duration: the preference becomes
Ended, and the cursor moves to the active chunk's stop exactly when the
controller cascade with a successor fires, staying put otherwise. -/
theorem saSetEnded_spec (u : SA) (hu : u.ended = true)
    (hct : u.currentTime ≥ u.duration) :
    (saSetEnded u).preferred = PlaybackState.ended ∧
    (saSetEnded u).currentTime =
      (match endedCascadeIndex u with
        | some n =>
          match u.chunks.get? n with
          | some c => c.stop
          | none => u.currentTime
        | none => u.currentTime) := by
  unfold saSetEnded endedCascadeIndex
  by_cases hpref : u.preferred = PlaybackState.ended
  · rw [if_pos hpref, if_pos hpref]
    exact ⟨hpref, rfl⟩
  · rw [if_neg hpref, if_neg hpref]
    unfold setEnded
    dsimp only
    unfold applyEndedToActiveCtrl
    simp only [SA.emit_chunks, SA.emit_currentChunkIndex]
    rcases hres : jsResolve u.chunks.length u.currentChunkIndex with _ | n
    · dsimp only
      exact ⟨rfl, rfl⟩
    · dsimp only
      rcases hget : u.chunks.get? n with _ | c
      · dsimp only
        exact ⟨rfl, rfl⟩
      · dsimp only
        rcases hctrl : c.ctrl with _ | k
        · dsimp only
          exact ⟨rfl, rfl⟩
        · dsimp only
          by_cases hk : k.preferred = PlaybackState.ended
          · rw [if_pos hk]
            rw [if_neg (fun hcon => hcon.1 hk)]
            dsimp only
            exact ⟨rfl, rfl⟩
          · rw [if_neg hk]
            dsimp only
            by_cases hidx : u.currentChunkIndex = (n : Int)
            · rw [if_pos hidx]
              have hn : n < u.chunks.length := (List.get?_eq_some.mp hget).1
              have hgetset : (u.chunks.set n
                  { c with ctrl := some { k with preferred := PlaybackState.ended } }).get? n =
                  some { c with ctrl := some { k with preferred := PlaybackState.ended } } := by
                rw [List.get?_set_eq_of_lt _ hn]
              by_cases hsucc : n + 1 < u.chunks.length
              · rw [if_pos ⟨hk, hidx, hsucc⟩]
                unfold onChunkEnded
                rw [if_pos (by simpa using hsucc)]
                dsimp only
                rw [hgetset]
                dsimp only
                rw [if_neg (by simp)]
                rw [hget]
                dsimp only
                exact ⟨by simp, by simp⟩
              · rw [if_neg (fun hcon => hsucc hcon.2.2)]
                unfold onChunkEnded
                rw [if_neg (by simpa using hsucc)]
                rw [if_pos ⟨by simp [hu], by simpa using hct⟩]
                rw [if_pos (by simp)]
                dsimp only
                exact ⟨by simp, by simp⟩
            · rw [if_neg hidx]
              rw [if_neg (fun hcon => hidx hcon.2.1)]
              dsimp only
              exact ⟨rfl, rfl⟩

/-- C3 as amended: for a seek to a time strictly greater than the known
duration: when end() has been called, the playback state is forced to
Ended and the cursor settles at seekPastEndTarget - the total duration
unless an active non-ended chunk controller with a successor chunk makes
the forced-Ended cascade move the cursor to that chunk's end instead; in
particular, with no such cascade the cursor is clamped to the duration
exactly as the original claim states.  When end() has not been called, the
seek target is left unclamped and the seek itself changes neither the
playback state nor the buffering state: Buffering is not emitted by the
seek. -/
theorem seek_past_end_spec (st : SA) (v : ℚ) (hv : v > st.duration) :
    (st.ended = true →
      (seekTo st v).preferred = PlaybackState.ended ∧
      (seekTo st v).currentTime = seekPastEndTarget st ∧
      (endedCascadeIndex st = none → (seekTo st v).currentTime = st.duration)) ∧
    (st.ended = false →
      (seekTo st v).currentTime = v ∧
      (seekTo st v).bufferingState = st.bufferingState ∧
      (seekTo st v).preferred = st.preferred ∧
      (seekTo st v).events = st.events ++ [SAEvent.seeking v, SAEvent.timeUpdate v]) := by
  constructor
  · intro hend
    unfold seekTo
    dsimp only
    rw [if_pos (show st.duration < v from hv), if_neg (show ¬st.ended = false by simp [hend])]
    have hu := saSetEnded_spec { st with currentTime := st.duration } hend (le_refl _)
    have hcasc : endedCascadeIndex { st with currentTime := st.duration } =
        endedCascadeIndex st := rfl
    rw [hcasc] at hu
    have htarget : (saSetEnded { st with currentTime := st.duration }).currentTime =
        seekPastEndTarget st := by
      rw [hu.2]
      rfl
    rw [if_neg (fun hcon => hcon.2 (by simp [hu.1]))]
    refine ⟨by simp [hu.1], by simpa using htarget, ?_⟩
    intro hnone
    simp only [SA.emit_currentTime]
    rw [htarget]
    unfold seekPastEndTarget
    rw [hnone]
  · intro hend
    unfold seekTo
    dsimp only
    rw [if_pos (show st.duration < v from hv), if_pos (show st.ended = false from hend)]
    rw [if_neg (fun hcon => absurd hcon.1 (not_le.mpr hv))]
    exact ⟨rfl, rfl, rfl, by simp [SA.emit]⟩

/-- C3 counterexample: the claim as stated fails on two concrete states.
First, an ended two-chunk timeline of duration 2, playing inside chunk 0
through a live controller: seeking to 5 does not clamp the cursor to the
duration - the forced-Ended transition on the active controller re-enters
the chunk-ended handler, which advances to chunk 1 and leaves the cursor
at chunk 0's end, 1.  Second, a non-ended timeline of duration 1 in the
Ready buffering state: seeking to 2 does not change the buffering state to
Buffering - the seek leaves it Ready. -/
theorem seek_past_end_claim_counterexample :
    (seekTo ⟨[⟨0, 1, some ⟨0, PlaybackState.play⟩⟩, ⟨1, 2, none⟩], 2, 0, true,
        PlaybackState.play, BufferingState.ready, 0, []⟩ 5).currentTime ≠
      (⟨[⟨0, 1, some ⟨0, PlaybackState.play⟩⟩, ⟨1, 2, none⟩], 2, 0, true,
        PlaybackState.play, BufferingState.ready, 0, []⟩ : SA).duration ∧
    (seekTo ⟨[], 1, 0, false, PlaybackState.pause, BufferingState.ready, -1, []⟩
        2).bufferingState ≠ BufferingState.buffering := by
  constructor
  · decide
  · decide

theorem seek_past_end_spec_witness :
    (seekTo ⟨[], 1, 0, false, PlaybackState.pause, BufferingState.ready, -1, []⟩
        2).currentTime = 2 ∧
    (seekTo ⟨[], 1, 0, false, PlaybackState.pause, BufferingState.ready, -1, []⟩
        2).bufferingState = BufferingState.ready := by
  have h := (seek_past_end_spec
    ⟨[], 1, 0, false, PlaybackState.pause, BufferingState.ready, -1, []⟩ 2
    (by norm_num)).2 rfl
  exact ⟨h.1, by rw [h.2.1]⟩

/-!
Chunk registration under decode failure: MediaSourceAppender of unnamed
part_007 (next and _estimateChunkDuration, lines 117-134 and 430-444)
against StreamingAudio.next (src/libs/StreamingAudio.ts, lines 135-149 and
227-239). -/

/-- StoredSegment of the part_007 MediaSourceAppender, reduced to the
timeline fields. -/
structure StoredSegment where
  timestamp : ℚ
  duration : ℚ
deriving DecidableEq, Repr

/-- Timeline state of the part_007 MediaSourceAppender. -/
structure MSA7 where
  segments : List StoredSegment
  currentTimestamp : ℚ
deriving DecidableEq, Repr

/-- MediaSourceAppender._estimateChunkDuration: decoding failure is caught
and falls back to duration 0. -/
def estimateChunkDuration (decode : Except Unit ℚ) : ℚ :=
  match decode with
  | .ok d => d
  | .error _ => 0

/-- MediaSourceAppender.next of part_007: estimates the duration, then
always registers the segment at the current timestamp and advances the
timeline by the estimated duration; nothing rejects. -/
def msa7Next (st : MSA7) (decode : Except Unit ℚ) : MSA7 :=
  ⟨st.segments ++ [⟨st.currentTimestamp, estimateChunkDuration decode⟩],
    st.currentTimestamp + estimateChunkDuration decode⟩

/-- C9 counterexample: on the StreamingAudio path cited by the claim, a
chunk whose audio fails to decode makes next() reject and register
nothing - _decodeAudioDuration has no catch, so the decode rejection
propagates out of next(), contradicting the claim that a decode failure
never rejects the chunk-registration call. -/
theorem decode_failure_claim_counterexample :
    saNext SA.init (Except.error ()) = Except.error () := rfl

/-- C9 as amended: in the part_007 MediaSourceAppender the claim holds -
a decode failure falls back to duration 0 and the chunk is still
registered on the timeline without advancing it, and next() is total; in
StreamingAudio, however, a decode failure propagates out of next(): the
promise rejects and the chunk list and duration are untouched. -/
theorem decode_failure_fallback (st7 : MSA7) (st : SA) :
    estimateChunkDuration (Except.error ()) = 0 ∧
    (msa7Next st7 (Except.error ())).segments =
      st7.segments ++ [⟨st7.currentTimestamp, 0⟩] ∧
    (msa7Next st7 (Except.error ())).currentTimestamp = st7.currentTimestamp ∧
    saNext st (Except.error ()) = Except.error () := by
  refine ⟨rfl, rfl, ?_, rfl⟩
  show st7.currentTimestamp + 0 = st7.currentTimestamp
  ring

theorem decode_failure_fallback_witness :
    (msa7Next ⟨[], 0⟩ (Except.error ())).segments = [⟨0, 0⟩] := by
  have h := (decode_failure_fallback ⟨[], 0⟩ SA.init).2.1
  simpa using h
